import Mathlib

/-!
Verification development for the ai-agent-infrastructure repository.

The backend processing core is embedded from the Python code in
`project_overview.md` (`process_email_webhook`, `log_email_analysis`,
`process_with_ai`) and the database schema in `specification_doc.md`;
the frontend pieces are embedded from the TypeScript sources under
`frontend/src`.  Components that the design documents describe but whose
implementation is absent from the repository (the webhook idempotency
store, the UsageGuard reservation engine, the token-refresh coordinator)
are modelled from the specification and marked as such in their doc
comments.
-/

namespace EmailProcessor

/-- JavaScript `a || b` on an optional string: `none`, and the empty
string, are falsy and fall through to the default. -/
def jsOr (a : Option String) (d : String) : String :=
  match a with
  | none => d
  | some s => if s = "" then d else s

/-- JavaScript `email.split('@')[0]`: everything before the first `@`
(the whole string when there is no `@`). -/
def localPart (e : String) : String :=
  e.takeWhile (fun c => c ≠ '@')

/-- `needle` occurs as a contiguous substring of `haystack`. -/
def occursIn (needle haystack : String) : Prop :=
  needle.data <:+: haystack.data

instance (n h : String) : Decidable (occursIn n h) :=
  List.decidableInfix n.data h.data

/-! ## Data model

`EmailAnalysis` mirrors the fields of the AI analysis object read by
`process_email_webhook` and `log_email_analysis` in
`project_overview.md` (sender_domain, subject, word_count,
is_sales_opportunity, confidence, keywords, safe_summary, tokens_used,
cost) together with `estimated_value` from the
`email_analysis_logs` schema. -/

structure EmailAnalysis where
  sender_domain : String
  subject : String
  word_count : Nat
  is_sales_opportunity : Bool
  confidence : ℚ
  keywords : List String
  safe_summary : String
  tokens_used : Nat
  cost : ℚ
  estimated_value : Option ℚ
  deriving DecidableEq, Repr

/-- A deal row as returned by the Pipedrive search / create capability. -/
structure Deal where
  title : String
  value : Option ℚ
  deriving DecidableEq, Repr

/-- Modelled from the spec: `hash_subject` is called by
`log_email_analysis` but its definition is absent from the repository;
the schema documents `subject_hash` as the SHA-256 hash of the subject.
We model the digest as an abstract 64-bit value computed by a rolling
hash, standing in for the SHA-256 digest. -/
def hash_subject (s : String) : Nat :=
  s.data.foldl (fun h c => (h * 31 + c.toNat) % (2 ^ 64)) 7

/-- One row of the `email_analysis_logs` table
(`specification_doc.md`), restricted to the columns written by
`log_email_analysis` in `project_overview.md`. -/
structure AnalysisRecord where
  user_id : String
  sender_domain : String
  subject_hash : Nat
  subject_length : Nat
  body_word_count : Nat
  is_sales_opportunity : Bool
  confidence_score : ℚ
  keywords_detected : List String
  ai_reasoning : String
  deal_created : Bool
  tokens_used : Nat
  cost_incurred : ℚ
  error_occurred : Bool
  error_message : Option String
  deriving DecidableEq, Repr

/-- The string-valued columns of an `AnalysisRecord`
(`subject_hash` is a digest, not text). -/
def recordStrings (r : AnalysisRecord) : List String :=
  r.user_id :: r.sender_domain :: r.ai_reasoning ::
    (r.keywords_detected ++ r.error_message.toList)

/-- `c` occurs as a substring of some persisted field of `r`. -/
def occursInRecord (c : String) (r : AnalysisRecord) : Prop :=
  ∃ f ∈ recordStrings r, occursIn c f

instance (c : String) (r : AnalysisRecord) : Decidable (occursInRecord c r) :=
  List.decidableBEx _ (recordStrings r)

/-! ## Errors and capability calls -/

/-- An exception raised inside `process_email_webhook`.  The code
propagates whatever the awaited capability raised; `check_limits`
raising on an exhausted budget is the `usage_limit_exceeded` case, and
`contentNotNone` is the `ValueError` raised by `log_email_analysis`. -/
inductive PErr where
  | usage_limit_exceeded
  | credentials_invalid
  | fetchFailed
  | aiFailed
  | searchFailed
  | createFailed
  | logFailed
  | trackFailed
  | contentNotNone
  deriving DecidableEq, Repr

/-- The awaited capability calls of `process_email_webhook`, in the
order the code makes them. -/
inductive CallTag where
  | checkLimits
  | getOutlookClient
  | fetchContent
  | getAiClient
  | aiAnalyze
  | getPipedriveClient
  | searchDeals
  | createDeal
  | logAnalysis
  | trackUsage
  | sendUpdate
  deriving DecidableEq, Repr

/-- The external capabilities `process_email_webhook` awaits, one field
per call site; each may fail with an exception. -/
structure Env where
  check_limits : Except PErr Unit
  get_outlook_client : Except PErr Unit
  get_email_content : Except PErr String
  get_ai_client : Except PErr Unit
  analyze_email : String → Except PErr EmailAnalysis
  get_pipedrive_client : Except PErr Unit
  search_deals : List String → Except PErr (List Deal)
  create_deal : EmailAnalysis → Except PErr Deal
  track_usage : Except PErr Unit
  send_update : Except PErr Unit

/-- The metadata-only log row built by `log_email_analysis`
(`project_overview.md`): every column is derived from the analysis
object, never from the email content (the subject is hashed). -/
def logRow (user_id : String) (analysis : EmailAnalysis)
    (deal_created : Bool) : AnalysisRecord :=
  { user_id := user_id
    sender_domain := analysis.sender_domain
    subject_hash := hash_subject analysis.subject
    subject_length := analysis.subject.length
    body_word_count := analysis.word_count
    is_sales_opportunity := analysis.is_sales_opportunity
    confidence_score := analysis.confidence
    keywords_detected := analysis.keywords
    ai_reasoning := analysis.safe_summary
    deal_created := deal_created
    tokens_used := analysis.tokens_used
    cost_incurred := analysis.cost
    error_occurred := false
    error_message := none }

/-- `log_email_analysis(user_id, analysis, deal_created, email_content)`
from `project_overview.md`: raises `ValueError` when `email_content` is
not `None`, otherwise stores the metadata-only log row. -/
def log_email_analysis (user_id : String) (analysis : EmailAnalysis)
    (deal_created : Bool) (email_content : Option String) :
    Except PErr AnalysisRecord :=
  if email_content.isSome then
    .error .contentNotNone
  else
    .ok (logRow user_id analysis deal_created)

/-- Result of one `process_email_webhook` run: the capability-call
trace, the `email_analysis_logs` rows added, the deals created, the
value of the `email_content` local after the `finally` block, and the
outcome (`.ok` for normal return, `.error e` when the exception `e`
propagated to the caller). -/
structure RunResult where
  calls : List CallTag
  records : List AnalysisRecord
  deals : List Deal
  contentBuffer : Option String
  outcome : Except PErr Unit
  deriving Repr

/-- The `try` block of `process_email_webhook` (`project_overview.md`,
steps 1-8), run to completion or to the first raised exception.  Also
reports the value the `email_content` local holds when the block is
left, before the `finally` clause runs. -/
def tryBlock (env : Env) (user_id : String) : RunResult :=
  match env.check_limits with
  | .error e => ⟨[.checkLimits], [], [], none, .error e⟩
  | .ok _ =>
    match env.get_outlook_client with
    | .error e => ⟨[.checkLimits, .getOutlookClient], [], [], none, .error e⟩
    | .ok _ =>
      match env.get_email_content with
      | .error e =>
          ⟨[.checkLimits, .getOutlookClient, .fetchContent], [], [], none, .error e⟩
      | .ok email_content =>
        match env.get_ai_client with
        | .error e =>
            ⟨[.checkLimits, .getOutlookClient, .fetchContent, .getAiClient],
              [], [], some email_content, .error e⟩
        | .ok _ =>
          match env.analyze_email email_content with
          | .error e =>
              ⟨[.checkLimits, .getOutlookClient, .fetchContent, .getAiClient,
                  .aiAnalyze], [], [], some email_content, .error e⟩
          | .ok analysis =>
            match env.get_pipedrive_client with
            | .error e =>
                ⟨[.checkLimits, .getOutlookClient, .fetchContent, .getAiClient,
                    .aiAnalyze, .getPipedriveClient],
                  [], [], some email_content, .error e⟩
            | .ok _ =>
              match env.search_deals analysis.keywords with
              | .error e =>
                  ⟨[.checkLimits, .getOutlookClient, .fetchContent, .getAiClient,
                      .aiAnalyze, .getPipedriveClient, .searchDeals],
                    [], [], some email_content, .error e⟩
              | .ok existing_deals =>
                let prefixCalls : List CallTag :=
                  [.checkLimits, .getOutlookClient, .fetchContent, .getAiClient,
                    .aiAnalyze, .getPipedriveClient, .searchDeals]
                -- step 5: create deal if needed
                if analysis.is_sales_opportunity ∧ existing_deals = [] then
                  match env.create_deal analysis with
                  | .error e =>
                      ⟨prefixCalls ++ [.createDeal], [], [],
                        some email_content, .error e⟩
                  | .ok deal =>
                    -- deal_created = True
                    match log_email_analysis user_id analysis true none with
                    | .error e =>
                        ⟨prefixCalls ++ [.createDeal, .logAnalysis], [], [deal],
                          some email_content, .error e⟩
                    | .ok rec =>
                      match env.track_usage with
                      | .error e =>
                          ⟨prefixCalls ++ [.createDeal, .logAnalysis, .trackUsage],
                            [rec], [deal], some email_content, .error e⟩
                      | .ok _ =>
                        match env.send_update with
                        | .error e =>
                            ⟨prefixCalls ++
                                [.createDeal, .logAnalysis, .trackUsage, .sendUpdate],
                              [rec], [deal], some email_content, .error e⟩
                        | .ok _ =>
                            ⟨prefixCalls ++
                                [.createDeal, .logAnalysis, .trackUsage, .sendUpdate],
                              [rec], [deal], some email_content, .ok ()⟩
                else
                  -- deal_created = False
                  match log_email_analysis user_id analysis false none with
                  | .error e =>
                      ⟨prefixCalls ++ [.logAnalysis], [], [],
                        some email_content, .error e⟩
                  | .ok rec =>
                    match env.track_usage with
                    | .error e =>
                        ⟨prefixCalls ++ [.logAnalysis, .trackUsage],
                          [rec], [], some email_content, .error e⟩
                    | .ok _ =>
                      match env.send_update with
                      | .error e =>
                          ⟨prefixCalls ++ [.logAnalysis, .trackUsage, .sendUpdate],
                            [rec], [], some email_content, .error e⟩
                      | .ok _ =>
                          ⟨prefixCalls ++ [.logAnalysis, .trackUsage, .sendUpdate],
                            [rec], [], some email_content, .ok ()⟩

/-- `process_email_webhook` from `project_overview.md`: runs the `try`
block; the `except` clause logs and re-raises, and the `finally` clause
always sets `email_content = None` before control leaves the function. -/
def process_email_webhook (env : Env) (user_id : String) : RunResult :=
  let t := tryBlock env user_id
  { t with contentBuffer := none }

/-! ## Webhook event dispatch (idempotency)

The repository contains no implementation of the `WebhookEvent`
idempotency store: `process_email_webhook` receives `webhook_data` with
no key handling, and no webhook endpoint code is present.  The
dispatcher below is therefore modelled from the spec. -/

/-- Modelled from the spec: `WebhookEvent.processing_status`
(`{pending, terminal-success, terminal-failure}`). -/
inductive EventStatus where
  | pending
  | terminalSuccess
  | terminalFailure
  deriving DecidableEq, Repr

def EventStatus.isTerminal : EventStatus → Bool
  | .pending => false
  | .terminalSuccess => true
  | .terminalFailure => true

/-- A safe one-word summary of a pipeline exception; never derived from
the email content. -/
def describeErr : PErr → String
  | .usage_limit_exceeded => "usage_limit_exceeded"
  | .credentials_invalid => "credentials_invalid"
  | .fetchFailed => "fetch_failed"
  | .aiFailed => "ai_analysis_failed"
  | .searchFailed => "deal_search_failed"
  | .createFailed => "deal_creation_failed"
  | .logFailed => "log_write_failed"
  | .trackFailed => "usage_tracking_failed"
  | .contentNotNone => "content_not_discarded"

/-- Modelled from the spec: the terminal `AnalysisRecord` written for a
Failed event - `error_occurred=true` and a safe error summary, never the
raw content. -/
def errorRecord (user_id : String) (e : PErr) : AnalysisRecord :=
  { user_id := user_id
    sender_domain := ""
    subject_hash := 0
    subject_length := 0
    body_word_count := 0
    is_sales_opportunity := false
    confidence_score := 0
    keywords_detected := []
    ai_reasoning := ""
    deal_created := false
    tokens_used := 0
    cost_incurred := 0
    error_occurred := true
    error_message := some (describeErr e) }

/-- The dispatcher-visible persistent state: the `WebhookEvent` rows
keyed by idempotency key (with the stored outcome of a terminal event),
the `email_analysis_logs` rows and the created deals. -/
structure DispatchState where
  events : List (String × EventStatus × Except PErr Unit)
  records : List AnalysisRecord
  deals : List Deal
  deriving Repr

def emptyState : DispatchState := ⟨[], [], []⟩

def lookupEvent (key : String) (st : DispatchState) :
    Option (EventStatus × Except PErr Unit) :=
  (st.events.find? (fun p => p.1 = key)).map Prod.snd

/-- Modelled from the spec: running the pipeline for a not-yet-terminal
key and recording the terminal outcome.  A Failed run that wrote no
record still gets exactly one terminal `AnalysisRecord` with
`error_occurred=true`, and the event is marked terminal. -/
def processFresh (env : Env) (user_id key : String) (st : DispatchState) :
    DispatchState × Except PErr Unit :=
  let r := process_email_webhook env user_id
  match r.outcome with
  | .ok _ =>
      (⟨(key, .terminalSuccess, .ok ()) :: st.events,
        st.records ++ r.records, st.deals ++ r.deals⟩, .ok ())
  | .error e =>
      (⟨(key, .terminalFailure, .error e) :: st.events,
        st.records ++ (if r.records = [] then [errorRecord user_id e] else r.records),
        st.deals ++ r.deals⟩, .error e)

/-- Modelled from the spec: submitting one webhook delivery.  `Received`
checks the idempotency key against the `WebhookEvent` store; if the key
is already terminal the prior outcome is returned with no reprocessing
and no new rows of any kind. -/
def submitEvent (env : Env) (user_id key : String) (st : DispatchState) :
    DispatchState × Except PErr Unit :=
  match lookupEvent key st with
  | some (status, prior) =>
    if status.isTerminal then (st, prior)
    else processFresh env user_id key st
  | none => processFresh env user_id key st

end EmailProcessor

namespace UsageGuard

/-! ## UsageGuard reservations

The repository's documents call `usage_monitor.check_limits` and
`usage_monitor.track_usage`, but `usage_monitor.py` itself is absent;
the reservation engine below is modelled from the spec. -/

/-- Modelled from the spec: a reservation handle holding the
provisional estimate added to the period counter. -/
structure Reservation where
  estimate : Nat
  deriving DecidableEq, Repr

/-- Result of `checkAndReserve`. -/
inductive ReserveResult where
  | reserved (r : Reservation) (newUsed : Nat)
  | limitExceeded
  deriving DecidableEq, Repr

/-- Modelled from the spec: `checkAndReserve` atomically reads the
period counter `used` against the hard `limit` and, if headroom exists,
provisionally increments by the estimate; otherwise it fails fast with
`LimitExceeded`. -/
def checkAndReserve (limit used estimate : Nat) : ReserveResult :=
  if used + estimate ≤ limit then .reserved ⟨estimate⟩ (used + estimate)
  else .limitExceeded

/-- Modelled from the spec: `reconcile` adjusts the period counter from
the estimate to the actual usage (may increase or decrease); the
already-spent overage is kept even when it breaches the limit. -/
def reconcile (used : Nat) (r : Reservation) (actual : Nat) : Nat :=
  used - r.estimate + actual

end UsageGuard


namespace RefreshCoordinator

/-! ## Single-flight token refresh

The repository's documents only mention `AuthManager` auto-refresh at
call sites (`get_outlook_client` etc.); no coordinator implementation is
present.  The lease-based coordinator below is modelled from the spec:
per-key compare-and-set lease, lease holder refreshes through the
provider capability, non-holders wait and re-read.  Concurrency is
modelled as an arbitrary interleaving of atomic client steps. -/

/-- A stored credential: `fresh` means its expiry is beyond the safety
margin. -/
structure Cred where
  token : Nat
  fresh : Bool
  deriving DecidableEq, Repr

/-- Modelled from the spec: the fresh credential the stub
`OAuthProvider.refresh` capability returns. -/
def refreshedCred : Cred := ⟨1, true⟩

/-- Where one `getValid` caller currently is: about to run the fast
path, holding the lease and about to refresh, waiting for the lease
holder, or finished having observed a token. -/
inductive ClientPC where
  | start
  | refreshing
  | waiting
  | done (observed : Nat)
  deriving DecidableEq, Repr

/-- Shared coordinator state plus the program counter of each of the
concurrent `getValid` callers; `refreshCount` counts calls to the
upstream provider's `refresh`. -/
structure CoordState where
  cred : Cred
  lease : Bool
  refreshCount : Nat
  clients : List ClientPC
  deriving DecidableEq, Repr

/-- Modelled from the spec: the initial state for `n` concurrent
`getValid` calls on a credential that is expired or within the safety
margin (token `0`, not fresh), lease free, no refresh yet. -/
def initState (n : Nat) : CoordState :=
  ⟨⟨0, false⟩, false, 0, List.replicate n .start⟩

/-- One atomic step of a single client.  `start`: fast path returns a
fresh credential directly; otherwise try the compare-and-set lease -
acquiring it moves to `refreshing`, losing it moves to `waiting`.
`refreshing`: the lease holder calls the provider refresh, writes the
result through the vault and releases the lease.  `waiting`: re-read;
finish once the credential is fresh. -/
def stepClient (s : CoordState) : ClientPC → CoordState × ClientPC
  | .start =>
    if s.cred.fresh then (s, .done s.cred.token)
    else if s.lease then (s, .waiting)
    else ({ s with lease := true }, .refreshing)
  | .refreshing =>
      ({ s with cred := refreshedCred, lease := false,
                refreshCount := s.refreshCount + 1 },
        .done refreshedCred.token)
  | .waiting =>
    if s.cred.fresh then (s, .done s.cred.token) else (s, .waiting)
  | .done v => (s, .done v)

/-- Let client `i` take one atomic step (a no-op for an out-of-range
index). -/
def step (s : CoordState) (i : Nat) : CoordState :=
  match s.clients[i]? with
  | none => s
  | some pc =>
    let (s1, pc1) := stepClient s pc
    { s1 with clients := s1.clients.set i pc1 }

/-- Run an arbitrary interleaving: the schedule lists which client
steps next. -/
def run (s : CoordState) (sched : List Nat) : CoordState :=
  sched.foldl step s

def isRefreshing : ClientPC → Bool
  | .refreshing => true
  | _ => false

def isDone : ClientPC → Bool
  | .done _ => true
  | _ => false

/-- The safety invariant of the coordinator:
at most one refresh ever happens; the credential is fresh exactly when
the refresh has happened, and then it is the provider's refreshed
credential; the lease is held exactly by the one client in the
`refreshing` leg; and nobody finishes before the refresh, after which
every finisher observed the refreshed token. -/
def Inv (s : CoordState) : Prop :=
  s.refreshCount ≤ 1 ∧
  (s.cred.fresh = true ↔ s.refreshCount = 1) ∧
  (s.cred.fresh = true → s.cred = refreshedCred) ∧
  (s.clients.countP isRefreshing = if s.lease then 1 else 0) ∧
  (s.lease = true → s.cred.fresh = false) ∧
  (s.refreshCount = 0 → ∀ pc ∈ s.clients, isDone pc = false) ∧
  (∀ v, ClientPC.done v ∈ s.clients → v = refreshedCred.token)

end RefreshCoordinator

namespace Frontend

/-! ## Frontend embeddings (`frontend/src`) -/

open EmailProcessor (jsOr localPart)

/-- The credentials object the NextAuth `authorize` callback receives. -/
structure Credentials where
  email : String
  password : String
  deriving DecidableEq, Repr

/-- The user JSON the backend user-lookup endpoint returns. -/
structure ApiUser where
  id : String
  email : String
  name : Option String
  image : Option String
  deriving DecidableEq, Repr

/-- Outcome of the `fetch` to
`${NEXT_PUBLIC_API_URL}/api/auth/users/email/...`: `ok` with parsed user
JSON, a non-ok HTTP status, or a thrown error. -/
inductive LookupOutcome where
  | ok (user : ApiUser)
  | errorStatus (code : Nat)
  | threw
  deriving DecidableEq, Repr

/-- The user object `authorize` returns (non-null case). -/
structure AuthUser where
  id : String
  email : String
  name : String
  image : Option String
  deriving DecidableEq, Repr

/-- `authorize` from
`frontend/src/app/api/auth/[...nextauth]/route.ts`: null when either
credential field is missing/empty (JS truthiness); on a successful
lookup, the API user with the email prefix as fallback name; on a
non-ok status or a thrown fetch, the fallback user
`user-<email>` named by the email prefix. -/
def authorize (cred : Option Credentials) (lookup : LookupOutcome) :
    Option AuthUser :=
  match cred with
  | none => none
  | some c =>
    if c.email = "" ∨ c.password = "" then none
    else
      match lookup with
      | .ok u => some ⟨u.id, u.email, jsOr u.name (localPart c.email), u.image⟩
      | .errorStatus _ =>
          some ⟨"user-" ++ c.email, c.email, localPart c.email, none⟩
      | .threw =>
          some ⟨"user-" ++ c.email, c.email, localPart c.email, none⟩

/-- The connection flags returned by `/api/services/status`. -/
structure ServiceStatus where
  outlook : Bool
  pipedrive : Bool
  openai : Bool
  anthropic : Bool
  deriving DecidableEq, Repr

/-- The `useOAuth` hook state:
`serviceStatus`, `loading`, `error`, `lastRefresh` (`Date.now()` ms). -/
structure OAuthState where
  serviceStatus : Option ServiceStatus
  loading : Bool
  error : Option String
  lastRefresh : Nat
  deriving DecidableEq, Repr

/-- The initial hook state (`useState` defaults: null status, not
loading, no error, `lastRefresh = 0`). -/
def initOAuthState : OAuthState := ⟨none, false, none, 0⟩

/-- Outcome of the status fetch in `refreshStatus`: parsed flags on
success, otherwise the error message that reaches the `catch` arm. -/
inductive StatusFetch where
  | ok (s : ServiceStatus)
  | fail (msg : String)
  deriving DecidableEq, Repr

/-- `refreshStatus` from `frontend/src/lib/hooks/use-oauth.ts` as a
state transition: given the hook state, the current `Date.now()` and
the fetch outcome, it returns the new state and whether a network
request was issued.  The debounce arm (`now - lastRefresh < 2000`)
returns before touching any state and before the fetch; otherwise
`lastRefresh := now` and the fetch result lands in `serviceStatus` or
`error`, with `loading` reset by the `finally`. -/
def refreshStatus (st : OAuthState) (now : Nat) (fetch : StatusFetch) :
    OAuthState × Bool :=
  if now - st.lastRefresh < 2000 then (st, false)
  else
    match fetch with
    | .ok s =>
        ({ st with serviceStatus := some s, loading := false,
                   error := none, lastRefresh := now }, true)
    | .fail m =>
        ({ st with loading := false, error := some m,
                   lastRefresh := now }, true)

/-- The parsed JSON body of the OAuth connect POST. -/
structure ConnectBody where
  provider : Option String
  user_id : Option String
  deriving DecidableEq, Repr

/-- JS truthiness of an optional string field. -/
def truthy : Option String → Bool
  | none => false
  | some s => s ≠ ""

/-- `await request.json()`: the parsed body, or a thrown parse error. -/
inductive ParsedBody where
  | ok (b : ConnectBody)
  | threw
  deriving DecidableEq, Repr

/-- Outcome of the forwarded fetch to
`${backendUrl}/api/auth/oauth/connect`. -/
inductive BackendOutcome where
  | ok (data : String)
  | notOk (status : Nat) (detail : Option String)
  | threw
  deriving DecidableEq, Repr

/-- A JSON response body: either `{error: ...}` or forwarded data. -/
inductive RespBody where
  | errorMsg (msg : String)
  | payload (data : String)
  deriving DecidableEq, Repr

/-- An HTTP response of the route handler. -/
structure HttpResponse where
  status : Nat
  body : RespBody
  deriving DecidableEq, Repr

/-- `POST` from `frontend/src/app/api/oauth/connect/route.ts`: parse
the body (parse failure is caught as a 500); 400 without forwarding
when `provider` or `user_id` is falsy; otherwise forward to the backend
and relay its outcome (`errorData.detail || 'Failed to connect OAuth
provider'` on a non-ok status, 500 when the forwarded fetch throws).
The boolean reports whether the backend request was issued. -/
def connectPOST (parsed : ParsedBody) (backend : BackendOutcome) :
    HttpResponse × Bool :=
  match parsed with
  | .threw => (⟨500, .errorMsg "Internal server error"⟩, false)
  | .ok b =>
    if truthy b.provider && truthy b.user_id then
      match backend with
      | .ok d => (⟨200, .payload d⟩, true)
      | .notOk status detail =>
          (⟨status, .errorMsg (jsOr detail "Failed to connect OAuth provider")⟩,
            true)
      | .threw => (⟨500, .errorMsg "Internal server error"⟩, true)
    else
      (⟨400, .errorMsg "Missing provider or user_id"⟩, false)

end Frontend

namespace EmailProcessor

/-! ## Concrete capability stubs used to evaluate the embedding -/

/-- A stub analysis result with fixed safe metadata. -/
def stubAnalysis : EmailAnalysis :=
  { sender_domain := "example.com"
    subject := "Renewal"
    word_count := 12
    is_sales_opportunity := true
    confidence := 17/20
    keywords := ["renewal", "contract"]
    safe_summary := "likely renewal opportunity"
    tokens_used := 42
    cost := 3/100
    estimated_value := some 5000 }

/-- An environment where every capability succeeds and the AI stub
returns `stubAnalysis` for any content. -/
def envOk : Env :=
  { check_limits := .ok ()
    get_outlook_client := .ok ()
    get_email_content := .ok "quarterly contract renewal details"
    get_ai_client := .ok ()
    analyze_email := fun _ => .ok stubAnalysis
    get_pipedrive_client := .ok ()
    search_deals := fun _ => .ok []
    create_deal := fun _ => .ok ⟨"renewal contract - AI Generated", some 5000⟩
    track_usage := .ok ()
    send_update := .ok () }

/-- `envOk` with an AI capability that fails (a malformed AI response). -/
def envAiFails : Env :=
  { envOk with analyze_email := fun _ => .error .aiFailed }

/-- `envOk` with an exhausted budget: `check_limits` raises. -/
def envLimitHit : Env :=
  { envOk with check_limits := .error .usage_limit_exceeded }

/-- `envOk` with an AI capability that echoes the raw email content
into the reasoning summary it returns. -/
def envEcho : Env :=
  { envOk with
      get_email_content := .ok "hello"
      analyze_email := fun s => .ok { stubAnalysis with safe_summary := s } }

/-- `envOk` with an AI analysis flagging a sales opportunity with
confidence `0` and a deduplication search that finds no match. -/
def envLowConf : Env :=
  { envOk with
      analyze_email := fun _ => .ok { stubAnalysis with confidence := 0 } }

end EmailProcessor

namespace EmailProcessor

/-- The conditions under which `process_email_webhook` reaches the
deal-creation call: every earlier capability call succeeded, the
deduplication search found no existing deals, and the analysis flags a
sales opportunity; `p` is an extra condition on the analysis. -/
def createCondition (env : Env) (p : EmailAnalysis → Prop) : Prop :=
  ∃ c a, env.check_limits = .ok () ∧ env.get_outlook_client = .ok () ∧
    env.get_email_content = .ok c ∧ env.get_ai_client = .ok () ∧
    env.analyze_email c = .ok a ∧ env.get_pipedrive_client = .ok () ∧
    env.search_deals a.keywords = .ok [] ∧ a.is_sales_opportunity = true ∧ p a

/-- The deal-creation rule claimed by the specification, for a
confidence policy threshold `t`: the creation capability is called
exactly when there is no match, the analysis flags a sales opportunity,
and the confidence is above `t`. -/
def confidenceThresholdClaim (t : ℚ) : Prop :=
  ∀ env uid, CallTag.createDeal ∈ (process_email_webhook env uid).calls ↔
    createCondition env (fun a => t < a.confidence)

/-! ## Structural lemmas about the pipeline -/

lemma records_le_one (env : Env) (uid : String) :
    (process_email_webhook env uid).records.length ≤ 1 := by
  unfold process_email_webhook tryBlock
  repeat' split <;> (try simp [log_email_analysis])

lemma deals_le_one (env : Env) (uid : String) :
    (process_email_webhook env uid).deals.length ≤ 1 := by
  unfold process_email_webhook tryBlock
  repeat' split <;> (try simp [log_email_analysis])

lemma success_records (env : Env) (uid : String) :
    (process_email_webhook env uid).outcome = .ok () →
    (process_email_webhook env uid).records.length = 1 := by
  unfold process_email_webhook tryBlock
  repeat' split <;> (try simp [log_email_analysis])

/-- C3: `process_email_webhook` performs the usage-limit check as its
first capability call, strictly before any content fetch; and whenever
that check reports the limit exceeded, the event fails with
`usage_limit_exceeded` as the only call made - no content is fetched
and no AI call occurs. -/
theorem usage_check_gates_pipeline (env : Env) (uid : String) :
    (∃ rest, (process_email_webhook env uid).calls = CallTag.checkLimits :: rest) ∧
    (env.check_limits = .error .usage_limit_exceeded →
      (process_email_webhook env uid).outcome = .error .usage_limit_exceeded ∧
      (process_email_webhook env uid).calls = [CallTag.checkLimits] ∧
      CallTag.fetchContent ∉ (process_email_webhook env uid).calls ∧
      CallTag.aiAnalyze ∉ (process_email_webhook env uid).calls) := by
  constructor
  · unfold process_email_webhook tryBlock
    repeat' split <;> (try simp)
  · intro h
    unfold process_email_webhook tryBlock
    simp [h]

theorem usage_check_gates_pipeline_witness :
    (process_email_webhook envLimitHit "user-1").outcome =
      Except.error PErr.usage_limit_exceeded ∧
    (process_email_webhook envLimitHit "user-1").calls = [CallTag.checkLimits] ∧
    CallTag.fetchContent ∉ (process_email_webhook envLimitHit "user-1").calls ∧
    CallTag.aiAnalyze ∉ (process_email_webhook envLimitHit "user-1").calls :=
  (usage_check_gates_pipeline envLimitHit "user-1").2 rfl

/-- C5: evaluating `process_email_webhook` at an event whose AI
analysis capability raises: the exception propagates (the `except`
clause only logs to the application logger and re-raises) and no
`AnalysisRecord` whatsoever is written - the code writes a record only
on the success path, contradicting the requirement of exactly one
terminal record with `error_occurred=true`. -/
theorem failure_writes_no_record :
    (process_email_webhook envAiFails "user-1").outcome =
      Except.error PErr.aiFailed ∧
    (process_email_webhook envAiFails "user-1").records = [] := by
  constructor <;> rfl

/-- C1: submitting the same idempotency key a second time, after the
first submission reached a terminal state, short-circuits with the
prior outcome and changes nothing: the store holds exactly one
`AnalysisRecord` and at most one deal, both coming from the first
submission alone. -/
theorem idempotent_submit (env : Env) (uid key : String) :
    submitEvent env uid key (submitEvent env uid key emptyState).1 =
      submitEvent env uid key emptyState ∧
    (submitEvent env uid key emptyState).1.records.length = 1 ∧
    (submitEvent env uid key emptyState).1.deals.length ≤ 1 := by
  have hd := deals_le_one env uid
  rcases ho : (process_email_webhook env uid).outcome with e | u
  · rcases hr : (process_email_webhook env uid).records with _ | ⟨r, rs⟩
    · simp [submitEvent, processFresh, lookupEvent, emptyState, ho, hr,
        EventStatus.isTerminal, List.find?, hd]
    · have hle := records_le_one env uid
      rw [hr] at hle
      have hrs : rs = [] := by
        simpa [Nat.succ_le_succ_iff] using hle
      subst hrs
      simp [submitEvent, processFresh, lookupEvent, emptyState, ho, hr,
        EventStatus.isTerminal, List.find?, hd]
  · obtain ⟨⟩ := u
    have hrec := success_records env uid ho
    simp [submitEvent, processFresh, lookupEvent, emptyState, ho,
      EventStatus.isTerminal, List.find?, hd, hrec]


lemma mem_records (env : Env) (uid : String) (r : AnalysisRecord)
    (hr : r ∈ (process_email_webhook env uid).records) :
    ∃ content a, env.get_email_content = .ok content ∧
      env.analyze_email content = .ok a ∧
      (r = logRow uid a true ∨ r = logRow uid a false) := by
  unfold process_email_webhook tryBlock at hr
  repeat' split at hr <;> (try simp_all [log_email_analysis])

/-- C2 (amended): every exit path of `process_email_webhook` leaves the
content buffer cleared, and - provided the AI capability's output
strings (sender domain, reasoning summary, keywords) and the user id do
not themselves contain the fetched content - no persisted
`AnalysisRecord` field contains the content as a substring. -/
theorem records_content_free (env : Env) (uid c : String)
    (hc : env.get_email_content = .ok c)
    (hai : ∀ a, env.analyze_email c = .ok a →
      ¬ occursIn c a.sender_domain ∧ ¬ occursIn c a.safe_summary ∧
        ∀ k ∈ a.keywords, ¬ occursIn c k)
    (huid : ¬ occursIn c uid) :
    (∀ r ∈ (process_email_webhook env uid).records, ¬ occursInRecord c r) ∧
    (process_email_webhook env uid).contentBuffer = none := by
  refine ⟨?_, rfl⟩
  intro r hr
  obtain ⟨content, a, hcontent, ha, hshape⟩ := mem_records env uid r hr
  rw [hc] at hcontent
  have hcc : c = content := by simpa using hcontent
  subst hcc
  obtain ⟨h1, h2, h3⟩ := hai a ha
  intro hocc
  obtain ⟨f, hf, hoccf⟩ := hocc
  rcases hshape with rfl | rfl <;>
    · simp [recordStrings, logRow] at hf
      rcases hf with rfl | rfl | rfl | hk
      · exact huid hoccf
      · exact h1 hoccf
      · exact h2 hoccf
      · exact h3 f hk hoccf

theorem records_content_free_witness :
    (∀ r ∈ (process_email_webhook envOk "user-1").records,
      ¬ occursInRecord "quarterly contract renewal details" r) ∧
    (process_email_webhook envOk "user-1").contentBuffer = none :=
  records_content_free envOk "user-1" "quarterly contract renewal details"
    rfl
    (by
      intro a ha
      simp only [envOk] at ha
      obtain rfl : stubAnalysis = a := by simpa using ha
      decide)
    (by decide)

/-- C2 (counterexample): with an AI capability that echoes the raw
email content into its reasoning summary, the pipeline persists an
`AnalysisRecord` whose `ai_reasoning` field contains the content
verbatim - the pipeline cannot guarantee content absence for arbitrary
input. -/
theorem content_echoed_into_record :
    ∃ r ∈ (process_email_webhook envEcho "user-1").records,
      occursInRecord "hello" r := by decide

/-- C6 (amended): the deal-creation capability is called if and only
if every earlier step succeeded, the deduplication search found no
existing deals, and the analysis flags a sales opportunity - the
analysis confidence is not consulted (the code has no confidence
threshold). -/
theorem deal_created_iff (env : Env) (uid : String) :
    CallTag.createDeal ∈ (process_email_webhook env uid).calls ↔
      createCondition env (fun _ => True) := by
  unfold process_email_webhook tryBlock
  repeat' split <;> (try simp_all [createCondition]) <;> (try (intro hd; simp_all))

theorem deal_created_iff_witness :
    CallTag.createDeal ∈ (process_email_webhook envOk "user-1").calls :=
  (deal_created_iff envOk "user-1").mpr
    ⟨"quarterly contract renewal details", stubAnalysis,
      rfl, rfl, rfl, rfl, rfl, rfl, rfl, rfl, trivial⟩

/-- C6 (counterexample): no nonnegative confidence policy threshold
makes the claimed rule true of the code - with an analysis of
confidence `0` flagging an opportunity and no existing deals, the
creation capability is still called, although `0` is not above any
nonnegative threshold. -/
theorem no_confidence_threshold :
    ¬ ∃ t : ℚ, 0 ≤ t ∧ confidenceThresholdClaim t := by
  rintro ⟨t, ht, hclaim⟩
  have h := (hclaim envLowConf "user-1").mp (by decide)
  obtain ⟨c, a, -, -, -, -, h5, -, -, -, h9⟩ := h
  simp only [envLowConf, envOk] at h5
  obtain rfl : { stubAnalysis with confidence := 0 } = a := by simpa using h5
  simp at h9
  exact absurd (lt_of_le_of_lt ht h9) (lt_irrefl 0)

end EmailProcessor

namespace RefreshCoordinator

lemma inv_init (n : Nat) : Inv (initState n) := by
  refine ⟨by simp [initState], by simp [initState, refreshedCred],
    by simp [initState], ?_, by simp [initState], ?_, ?_⟩
  · have hz : ∀ pc ∈ List.replicate n ClientPC.start, ¬ isRefreshing pc = true := by
      intro pc hpc
      rw [List.eq_of_mem_replicate hpc]
      simp [isRefreshing]
    simpa [initState] using List.countP_eq_zero.mpr hz
  · intro _ pc hpc
    simp only [initState] at hpc
    rw [List.eq_of_mem_replicate hpc]
    simp [isDone]
  · intro v hv
    simp only [initState] at hv
    exact absurd (List.eq_of_mem_replicate hv) (by simp)

lemma inv_step (s : CoordState) (i : Nat) (h : Inv s) : Inv (step s i) := by
  obtain ⟨hA, hB, hC, hD, hE, hF, hG⟩ := h
  unfold step
  cases hget : s.clients[i]? with
  | none => exact ⟨hA, hB, hC, hD, hE, hF, hG⟩
  | some pc =>
    obtain ⟨hlen, hgetel⟩ := List.getElem?_eq_some_iff.mp hget
    cases pc with
    | start =>
      by_cases hf : s.cred.fresh = true
      · simp only [stepClient, if_pos hf]
        refine ⟨hA, hB, hC, ?_, hE, ?_, ?_⟩
        · rw [List.countP_set _ _ _ _ hlen, hgetel]
          simp [isRefreshing, hD]
        · intro h0
          have h0s : s.refreshCount = 0 := h0
          have h1s : s.refreshCount = 1 := hB.mp hf
          exact absurd h1s (by omega)
        · intro v hv
          rcases List.mem_or_eq_of_mem_set hv with hmem | heq
          · exact hG v hmem
          · have hv2 : v = s.cred.token := by injection heq
            rw [hv2, hC hf]
      · by_cases hl : s.lease = true
        · simp only [stepClient, if_neg hf, if_pos hl]
          refine ⟨hA, hB, hC, ?_, hE, ?_, ?_⟩
          · rw [List.countP_set _ _ _ _ hlen, hgetel]
            simp [isRefreshing, hD]
          · intro h0 pc1 hpc1
            rcases List.mem_or_eq_of_mem_set hpc1 with hmem | heq
            · exact hF h0 pc1 hmem
            · rw [heq]; rfl
          · intro v hv
            rcases List.mem_or_eq_of_mem_set hv with hmem | heq
            · exact hG v hmem
            · exact absurd heq (by simp)
        · simp only [stepClient, if_neg hf, if_neg hl]
          simp only [Bool.not_eq_true] at hf hl
          refine ⟨hA, hB, hC, ?_, ?_, ?_, ?_⟩
          · rw [List.countP_set _ _ _ _ hlen, hgetel]
            simp [isRefreshing, hD, hl]
          · intro _
            exact hf
          · intro h0 pc1 hpc1
            rcases List.mem_or_eq_of_mem_set hpc1 with hmem | heq
            · exact hF h0 pc1 hmem
            · rw [heq]; rfl
          · intro v hv
            rcases List.mem_or_eq_of_mem_set hv with hmem | heq
            · exact hG v hmem
            · exact absurd heq (by simp)
    | refreshing =>
      have hpos : 0 < s.clients.countP isRefreshing :=
        List.countP_pos_iff.mpr
          ⟨ClientPC.refreshing, hgetel ▸ List.getElem_mem hlen, rfl⟩
      have hl : s.lease = true := by
        by_contra hl
        simp only [Bool.not_eq_true] at hl
        rw [hD, hl] at hpos
        simp at hpos
      have hfr : s.cred.fresh = false := hE hl
      have hc1 : s.refreshCount ≠ 1 := by
        intro hc
        rw [hB.mpr hc] at hfr
        exact Bool.noConfusion hfr
      have hc0 : s.refreshCount = 0 := by omega
      simp only [stepClient]
      refine ⟨?_, ?_, ?_, ?_, ?_, ?_, ?_⟩
      · show s.refreshCount + 1 ≤ 1
        omega
      · show refreshedCred.fresh = true ↔ s.refreshCount + 1 = 1
        simp [refreshedCred, hc0]
      · intro _
        rfl
      · show (s.clients.set i (ClientPC.done refreshedCred.token)).countP
            isRefreshing = if false then 1 else 0
        rw [List.countP_set _ _ _ _ hlen, hgetel]
        simp [isRefreshing, hD, hl]
      · intro hx
        exact absurd hx (by simp)
      · intro h0
        exact absurd (show s.refreshCount + 1 = 0 from h0) (by omega)
      · intro v hv
        rcases List.mem_or_eq_of_mem_set hv with hmem | heq
        · exact hG v hmem
        · injection heq
    | waiting =>
      by_cases hf : s.cred.fresh = true
      · simp only [stepClient, if_pos hf]
        refine ⟨hA, hB, hC, ?_, hE, ?_, ?_⟩
        · rw [List.countP_set _ _ _ _ hlen, hgetel]
          simp [isRefreshing, hD]
        · intro h0
          have h0s : s.refreshCount = 0 := h0
          have h1s : s.refreshCount = 1 := hB.mp hf
          exact absurd h1s (by omega)
        · intro v hv
          rcases List.mem_or_eq_of_mem_set hv with hmem | heq
          · exact hG v hmem
          · have hv2 : v = s.cred.token := by injection heq
            rw [hv2, hC hf]
      · simp only [stepClient, if_neg hf]
        refine ⟨hA, hB, hC, ?_, hE, ?_, ?_⟩
        · rw [List.countP_set _ _ _ _ hlen, hgetel]
          simp [isRefreshing, hD]
        · intro h0 pc1 hpc1
          rcases List.mem_or_eq_of_mem_set hpc1 with hmem | heq
          · exact hF h0 pc1 hmem
          · rw [heq]; rfl
        · intro v hv
          rcases List.mem_or_eq_of_mem_set hv with hmem | heq
          · exact hG v hmem
          · exact absurd heq (by simp)
    | done v0 =>
      simp only [stepClient]
      refine ⟨hA, hB, hC, ?_, hE, ?_, ?_⟩
      · rw [List.countP_set _ _ _ _ hlen, hgetel]
        simp [isRefreshing, hD]
      · intro h0 pc1 hpc1
        have hbad := hF h0 _ (hgetel ▸ List.getElem_mem hlen)
        simp [isDone] at hbad
      · intro v hv
        rcases List.mem_or_eq_of_mem_set hv with hmem | heq
        · exact hG v hmem
        · have hv2 : v = v0 := by injection heq
          rw [hv2]
          exact hG v0 (hgetel ▸ List.getElem_mem hlen)

lemma inv_run (s : CoordState) (sched : List Nat) (h : Inv s) :
    Inv (run s sched) := by
  induction sched generalizing s with
  | nil => exact h
  | cons a t ih => exact ih _ (inv_step s a h)

lemma step_clients_length (s : CoordState) (i : Nat) :
    (step s i).clients.length = s.clients.length := by
  unfold step stepClient
  repeat' split <;> (try simp)

lemma run_clients_length (s : CoordState) (sched : List Nat) :
    (run s sched).clients.length = s.clients.length := by
  induction sched generalizing s with
  | nil => rfl
  | cons a t ih => rw [run, List.foldl_cons, ← run, ih, step_clients_length]

/-- C4: for a credential that is expired or within the safety margin,
under any interleaving of any number of concurrent `getValid` callers
in which every caller completes, the upstream provider refresh is
invoked exactly once and every caller observes the refreshed
credential. -/
theorem single_flight_refresh (n : Nat) (sched : List Nat) (hn : 0 < n)
    (hdone : ∀ pc ∈ (run (initState n) sched).clients, isDone pc = true) :
    (run (initState n) sched).refreshCount = 1 ∧
    ∀ pc ∈ (run (initState n) sched).clients,
      pc = ClientPC.done refreshedCred.token := by
  obtain ⟨hA, hB, hC, hD, hE, hF, hG⟩ := inv_run (initState n) sched (inv_init n)
  have hlen : (run (initState n) sched).clients.length = n := by
    rw [run_clients_length]
    simp [initState]
  have hne : (run (initState n) sched).clients ≠ [] := by
    intro hnil
    rw [hnil] at hlen
    simp at hlen
    omega
  obtain ⟨pc0, hpc0⟩ := List.exists_mem_of_ne_nil _ hne
  have hcount : (run (initState n) sched).refreshCount ≠ 0 := by
    intro h0
    have hbad := hF h0 pc0 hpc0
    rw [hdone pc0 hpc0] at hbad
    exact Bool.noConfusion hbad
  refine ⟨by omega, ?_⟩
  intro pc hpc
  have hd := hdone pc hpc
  cases pc with
  | done v => rw [hG v hpc]
  | start => exact absurd hd (by simp [isDone])
  | refreshing => exact absurd hd (by simp [isDone])
  | waiting => exact absurd hd (by simp [isDone])

theorem single_flight_refresh_witness :
    (run (initState 3) [0, 0, 1, 2]).refreshCount = 1 ∧
    ∀ pc ∈ (run (initState 3) [0, 0, 1, 2]).clients,
      pc = ClientPC.done refreshedCred.token :=
  single_flight_refresh 3 [0, 0, 1, 2] (by decide) (by decide)

end RefreshCoordinator

namespace UsageGuard

/-- C7: reconciling a reservation of an estimated 100 tokens against an
actual of 150 leaves the period counter reflecting the base usage plus
150 (not plus 250); and when the actual breaches the hard limit, the
overage stands in the counter but every subsequent `checkAndReserve` of
the period fails with `LimitExceeded`. -/
theorem reconcile_replaces_estimate (limit base : Nat)
    (h : base + 100 ≤ limit) :
    checkAndReserve limit base 100 = .reserved ⟨100⟩ (base + 100) ∧
    reconcile (base + 100) ⟨100⟩ 150 = base + 150 ∧
    (limit < base + 150 →
      ∀ est, checkAndReserve limit (reconcile (base + 100) ⟨100⟩ 150) est =
        .limitExceeded) := by
  refine ⟨by simp [checkAndReserve, h], by simp [reconcile], ?_⟩
  intro hover est
  simp only [checkAndReserve, reconcile]
  rw [if_neg]
  omega

theorem reconcile_replaces_estimate_witness :
    reconcile (60 + 100) ⟨100⟩ 150 = 60 + 150 ∧
    ∀ est, checkAndReserve 200 (reconcile (60 + 100) ⟨100⟩ 150) est =
      ReserveResult.limitExceeded :=
  ⟨(reconcile_replaces_estimate 200 60 (by decide)).2.1,
    (reconcile_replaces_estimate 200 60 (by decide)).2.2 (by decide)⟩

end UsageGuard

namespace Frontend

open EmailProcessor (jsOr localPart)

/-- C8: whenever both credential fields are non-empty, the NextAuth
`authorize` callback returns a user object - never null; on a non-ok
backend status or a thrown fetch it returns the fallback user with id
`user-<email>` and the email prefix as name, so sign-in succeeds
regardless of the password and of whether the user exists. -/
theorem authorize_never_null (c : Credentials) (lookup : LookupOutcome)
    (he : c.email ≠ "") (hp : c.password ≠ "") :
    (∃ u, authorize (some c) lookup = some u) ∧
    (∀ code, authorize (some c) (.errorStatus code) =
      some ⟨"user-" ++ c.email, c.email, localPart c.email, none⟩) ∧
    authorize (some c) .threw =
      some ⟨"user-" ++ c.email, c.email, localPart c.email, none⟩ := by
  refine ⟨?_, ?_, ?_⟩
  · rw [← Option.isSome_iff_exists]
    cases lookup <;> simp [authorize, he, hp]
  · intro code
    simp [authorize, he, hp]
  · simp [authorize, he, hp]

theorem authorize_never_null_witness :
    authorize (some ⟨"alice@example.com", "hunter2"⟩)
        (LookupOutcome.errorStatus 500) =
      some ⟨"user-" ++ "alice@example.com", "alice@example.com",
        EmailProcessor.localPart "alice@example.com", none⟩ :=
  (authorize_never_null ⟨"alice@example.com", "hunter2"⟩
    (LookupOutcome.errorStatus 500) (by decide) (by decide)).2.1 500

/-- C9 (amended): a `refreshStatus` call is a no-op (no network
request, every state field unchanged) exactly when it begins less than
2000 ms after the `lastRefresh` timestamp recorded by the most recent
non-debounced call - not merely less than 2000 ms after the previous
call; past the window it issues the request and records its own start
time. -/
theorem refresh_debounce (st : OAuthState) (now : Nat)
    (fetch : StatusFetch) :
    (now - st.lastRefresh < 2000 → refreshStatus st now fetch = (st, false)) ∧
    (2000 ≤ now - st.lastRefresh →
      (refreshStatus st now fetch).2 = true ∧
      (refreshStatus st now fetch).1.lastRefresh = now) := by
  constructor
  · intro h
    simp [refreshStatus, h]
  · intro h
    have h2 : ¬ (now - st.lastRefresh < 2000) := by omega
    cases fetch <;> simp [refreshStatus, h2]

theorem refresh_debounce_witness :
    refreshStatus ⟨none, false, none, 3000⟩ 4000
        (StatusFetch.ok ⟨true, true, true, true⟩) =
      (⟨none, false, none, 3000⟩, false) :=
  (refresh_debounce ⟨none, false, none, 3000⟩ 4000
    (StatusFetch.ok ⟨true, true, true, true⟩)).1 (by decide)

/-- C9 (counterexample): call A at 2500 ms refreshes; call B at 4000 ms
is debounced (state unchanged); call C at 5000 ms begins only 1000 ms
after B, yet it issues a network request - the debounce is measured
from the last recorded refresh, not from the previous call. -/
theorem debounce_not_pairwise :
    (refreshStatus
        (refreshStatus initOAuthState 2500
          (StatusFetch.ok ⟨true, true, true, true⟩)).1
        4000 (StatusFetch.ok ⟨true, true, true, true⟩)) =
      ((refreshStatus initOAuthState 2500
          (StatusFetch.ok ⟨true, true, true, true⟩)).1, false) ∧
    5000 - 4000 < 2000 ∧
    (refreshStatus
        (refreshStatus
          (refreshStatus initOAuthState 2500
            (StatusFetch.ok ⟨true, true, true, true⟩)).1
          4000 (StatusFetch.ok ⟨true, true, true, true⟩)).1
        5000 (StatusFetch.ok ⟨true, true, true, true⟩)).2 = true := by
  decide

/-- C10 (amended): the OAuth connect handler returns 400 with
`{error: "Missing provider or user_id"}` and forwards nothing whenever
the parsed body lacks a truthy `provider` or `user_id`; when both are
truthy the request is always forwarded, and the same 400 response can
then arise only by relaying a backend reply with status 400 and detail
`Missing provider or user_id`. -/
theorem connect_missing_fields (b : ConnectBody)
    (backend : BackendOutcome) :
    (¬ (truthy b.provider && truthy b.user_id) = true →
      connectPOST (.ok b) backend =
        (⟨400, .errorMsg "Missing provider or user_id"⟩, false)) ∧
    ((truthy b.provider && truthy b.user_id) = true →
      (connectPOST (.ok b) backend).2 = true ∧
      ((connectPOST (.ok b) backend).1 =
          ⟨400, .errorMsg "Missing provider or user_id"⟩ →
        backend = .notOk 400 (some "Missing provider or user_id"))) := by
  constructor
  · intro h
    simp [connectPOST, h]
  · intro h
    constructor
    · cases backend <;> simp [connectPOST, h]
    · intro hr
      cases backend with
      | ok d => simp [connectPOST, h] at hr
      | threw => simp [connectPOST, h] at hr
      | notOk status detail =>
        simp only [connectPOST, h, if_pos] at hr
        obtain ⟨hs, hd⟩ := by
          simpa [HttpResponse.mk.injEq, RespBody.errorMsg.injEq] using hr
        cases detail with
        | none => simp [jsOr] at hd
        | some msg =>
          by_cases hemp : msg = ""
          · subst hemp
            simp [jsOr] at hd
          · simp [jsOr, hemp] at hd
            rw [hs, hd]

theorem connect_missing_fields_witness :
    connectPOST (.ok ⟨none, some "user-1"⟩) (.ok "data") =
      (⟨400, .errorMsg "Missing provider or user_id"⟩, false) :=
  (connect_missing_fields ⟨none, some "user-1"⟩ (.ok "data")).1 (by decide)

/-- C10 (counterexample): with both fields truthy the handler forwards
the request, and when the backend itself replies 400 with detail
`Missing provider or user_id` the relayed response is byte-identical to
the validation failure - so a 400 with that body does not imply the
body lacked the fields, and a request was forwarded. -/
theorem connect_relays_same_error :
    (truthy (some "outlook") && truthy (some "user-1")) = true ∧
    connectPOST (.ok ⟨some "outlook", some "user-1"⟩)
        (.notOk 400 (some "Missing provider or user_id")) =
      (⟨400, .errorMsg "Missing provider or user_id"⟩, true) := by
  decide

end Frontend
